import Mathlib

/-!
Verification development for a 2D Ising model simulator written in Rust.

The repository has two independent implementations:

* `src/grid.rs` + `src/spin.rs`: a `Grid` of `Spin` values with periodic
  boundary conditions, per-site energies and a Metropolis single-site update
  (`single_site_step`) composed into a sweep (`step`).
* `src/main.rs`: a standalone executable with its own `sweep` function over a
  `Vec<Vec<i32>>` configuration.

Embedding conventions:

* Rust `i64` coordinates become `Int`; `usize` sizes become `Nat`.
* Rust `f64` energies are modelled as rationals: every energy value produced
  by the grid code is a sum or product of small integers with the coupling
  and field parameters, so the arithmetic is exact. Where the code calls the
  transcendental `exp` (the Metropolis acceptance test), the value is mapped
  into the reals and `Real.exp` is used.
* The random number generator is abstracted as an oracle: a stream of boolean
  coin flips for grid initialisation, and a stream of draws from [0,1) for
  the acceptance tests, exactly one value per consultation point in the code.
* Rust `Vec` indexing panics out of bounds; the embedding uses `List.getD`
  with a default. On grids satisfying the length invariant
  `spins.length = width * height` every computed index is in bounds, so the
  default is never consulted there; theorems carry that hypothesis whenever
  it matters.
* Rust `%` on `i64` is the truncating remainder, embedded as `Int.tmod`;
  the `as usize` cast of the final non-negative index is `Int.toNat`.
-/

namespace Ising

/-- The two-valued spin state from `src/spin.rs`. -/
inductive Spin where
  | Up : Spin
  | Down : Spin
deriving DecidableEq

/-- `Spin::flip` from `src/spin.rs`: returns the opposite spin. -/
def Spin.flip : Spin → Spin
  | .Up => .Down
  | .Down => .Up

/-- The `Grid` struct from `src/grid.rs`: a flat collection of spins plus
the two dimensions. -/
structure Grid where
  spins : List Spin
  width : Nat
  height : Nat
deriving DecidableEq

namespace Grid

/-- `Grid::new_random` from `src/grid.rs`, with the random source abstracted
as a boolean oracle `coins`: site `i` of the flat storage receives `Up` when
`coins i` is true and `Down` otherwise, one independent draw per site as in
the source. -/
def new_random_with (width height : Nat) (coins : Nat → Bool) : Grid :=
  { spins := (List.range (width * height)).map
      (fun i => if coins i then Spin.Up else Spin.Down),
    width := width,
    height := height }

/-- `Grid::new_constant` from `src/grid.rs`: `width * height` copies of the
given spin. -/
def new_constant (width height : Nat) (spin : Spin) : Grid :=
  { spins := List.replicate (width * height) spin,
    width := width,
    height := height }

/-- `Grid::get_index` from `src/grid.rs`. The Rust source computes
`((x % w) + w) % w` and `((y % h) + h) % h` with the truncating `i64`
remainder (`Int.tmod`), then `(y_periodic * w + x_periodic) as usize`.
For positive dimensions the intermediate value is non-negative, so the
`as usize` cast is `Int.toNat`. -/
def get_index (g : Grid) (x y : Int) : Nat :=
  let x_periodic := (x.tmod (g.width : Int) + (g.width : Int)).tmod (g.width : Int)
  let y_periodic := (y.tmod (g.height : Int) + (g.height : Int)).tmod (g.height : Int)
  (y_periodic * (g.width : Int) + x_periodic).toNat

/-- `Grid::get` from `src/grid.rs`: the spin at the wrapped coordinate.
`self.spins[index]` is total on grids satisfying the length invariant. -/
def get (g : Grid) (x y : Int) : Spin :=
  g.spins.getD (g.get_index x y) Spin.Up

/-- `Grid::get_spin_as_float` from `src/grid.rs`: Up projects to 1.0 and
Down to -1.0. -/
def get_spin_as_float (g : Grid) (x y : Int) : ℚ :=
  match g.get x y with
  | Spin.Up => 1
  | Spin.Down => -1

/-- `Grid::set` from `src/grid.rs`: overwrite the spin at the wrapped
coordinate. -/
def set (g : Grid) (x y : Int) (spin : Spin) : Grid :=
  { g with spins := g.spins.set (g.get_index x y) spin }

/-- `Grid::field_energy` from `src/grid.rs`: the sum of the spin at the site
and its four neighbours, times the field. -/
def field_energy (g : Grid) (x y : Int) (field : ℚ) : ℚ :=
  let our_spin := g.get_spin_as_float x y
  let upper_neighbor := g.get_spin_as_float x (y + 1)
  let lower_neighbor := g.get_spin_as_float x (y - 1)
  let left_neighbor := g.get_spin_as_float (x - 1) y
  let right_neighbor := g.get_spin_as_float (x + 1) y
  let energy := (our_spin + upper_neighbor + lower_neighbor + left_neighbor + right_neighbor) * field
  energy

/-- `Grid::interaction_energy` from `src/grid.rs`. -/
def interaction_energy (g : Grid) (x y : Int) (coupling : ℚ) : ℚ :=
  let our_spin := g.get_spin_as_float x y
  let upper_neighbor := g.get_spin_as_float x (y + 1)
  let lower_neighbor := g.get_spin_as_float x (y - 1)
  let left_neighbor := g.get_spin_as_float (x - 1) y
  let right_neighbor := g.get_spin_as_float (x + 1) y
  let energy := -coupling * our_spin * (upper_neighbor + lower_neighbor + left_neighbor + right_neighbor)
  energy

/-- `Grid::total_energy` from `src/grid.rs`. -/
def total_energy (g : Grid) (x y : Int) (coupling field : ℚ) : ℚ :=
  g.interaction_energy x y coupling + g.field_energy x y field

end Grid

/-- The acceptance value computed by `Grid::single_site_step` in
`src/grid.rs`: the Rust expression is
`(-(new_energy - current_energy).exp()).min(1.0)`. Method calls bind
tighter than unary minus, so this is `min (-(exp dE)) 1` of the energy
difference `dE`, not `min (exp (-dE)) 1`. -/
noncomputable def probability_of_acceptance (dE : ℝ) : ℝ :=
  min (-Real.exp dE) 1

namespace Grid

/-- `Grid::single_site_step` from `src/grid.rs`. The single uniform draw
from [0,1) made by the source is passed in as `r`. The energy difference is
mapped into the reals where the source takes `exp`. -/
noncomputable def single_site_step (g : Grid) (x y : Int) (coupling field : ℚ) (r : ℝ) : Grid :=
  let current_energy := g.total_energy x y coupling field
  let current_spin := g.get x y
  let new_spin := current_spin.flip
  let g1 := g.set x y new_spin
  let new_energy := g1.total_energy x y coupling field
  let p := probability_of_acceptance ((new_energy - current_energy : ℚ) : ℝ)
  if r > p then g1.set x y current_spin else g1

/-- `Grid::step` from `src/grid.rs`: one single-site update per site,
`y` outer over `0..height`, `x` inner over `0..width`, threading the mutated
grid through. The random stream `rs` supplies the draw consumed by each
single-site update in order; the second component counts consumed draws. -/
noncomputable def step (g : Grid) (coupling field : ℚ) (rs : Nat → ℝ) : Grid :=
  ((List.range g.height).foldl
    (fun acc y =>
      (List.range g.width).foldl
        (fun acc2 x =>
          (acc2.1.single_site_step (x : Int) (y : Int) coupling field (rs acc2.2), acc2.2 + 1))
        acc)
    (g, 0)).1

end Grid

/-! ### Arithmetic facts about the truncating remainder chain -/

/-- The truncating remainder is odd in its first argument. -/
lemma neg_tmod (a b : Int) : (-a).tmod b = -(a.tmod b) := by
  rw [Int.tmod_def, Int.tmod_def, Int.neg_tdiv]
  ring

/-- Lower bound for the truncating remainder by a positive modulus. -/
lemma neg_lt_tmod (a : Int) {b : Int} (hb : 0 < b) : -b < a.tmod b := by
  rcases le_or_lt 0 a with ha | ha
  · have h1 := Int.tmod_nonneg b ha
    linarith
  · have h1 : (-a).tmod b < b := Int.tmod_lt_of_pos _ hb
    have h2 : a.tmod b = -((-a).tmod b) := by
      rw [neg_tmod, neg_neg]
    linarith [h1, h2]

/-- The double-remainder normalisation used by `get_index` agrees with the
mathematical (Euclidean) modulo. -/
lemma tmod_wrap {w : Int} (hw : 0 < w) (x : Int) :
    (x.tmod w + w).tmod w = x % w := by
  have hlow := neg_lt_tmod x hw
  have hnn : 0 ≤ x.tmod w + w := by linarith
  rw [Int.tmod_eq_emod hnn hw.le, Int.tmod_def x w]
  have h1 : x - w * x.tdiv w + w = x + w * (1 - x.tdiv w) := by ring
  rw [h1, Int.add_mul_emod_self_left]

/-! ### Characterisation of get_index -/

/-- `get_index` computes the true-modulo row-major offset. -/
lemma get_index_eq (g : Grid) (hw : 0 < g.width) (hh : 0 < g.height) (x y : Int) :
    (g.get_index x y : Int) =
      y % (g.height : Int) * (g.width : Int) + x % (g.width : Int) := by
  have hw' : (0 : Int) < (g.width : Int) := by exact_mod_cast hw
  have hh' : (0 : Int) < (g.height : Int) := by exact_mod_cast hh
  have h1 : 0 ≤ y % (g.height : Int) := Int.emod_nonneg _ (ne_of_gt hh')
  have h2 : 0 ≤ x % (g.width : Int) := Int.emod_nonneg _ (ne_of_gt hw')
  simp only [Grid.get_index, tmod_wrap hw', tmod_wrap hh']
  rw [Int.toNat_of_nonneg (add_nonneg (mul_nonneg h1 hw'.le) h2)]

/-- The offset computed by `get_index` is in bounds for positive dimensions. -/
lemma get_index_lt (g : Grid) (hw : 0 < g.width) (hh : 0 < g.height) (x y : Int) :
    g.get_index x y < g.width * g.height := by
  have hw' : (0 : Int) < (g.width : Int) := by exact_mod_cast hw
  have hh' : (0 : Int) < (g.height : Int) := by exact_mod_cast hh
  have h1 : 0 ≤ y % (g.height : Int) := Int.emod_nonneg _ (ne_of_gt hh')
  have h2 : 0 ≤ x % (g.width : Int) := Int.emod_nonneg _ (ne_of_gt hw')
  have h3 : y % (g.height : Int) < (g.height : Int) := Int.emod_lt_of_pos _ hh'
  have h4 : x % (g.width : Int) < (g.width : Int) := Int.emod_lt_of_pos _ hw'
  have h5 : y % (g.height : Int) * (g.width : Int) ≤ ((g.height : Int) - 1) * (g.width : Int) :=
    mul_le_mul_of_nonneg_right (by omega) hw'.le
  have key : (g.get_index x y : Int) < (g.width : Int) * (g.height : Int) := by
    rw [get_index_eq g hw hh x y]
    nlinarith
  exact_mod_cast key

/-- Two coordinate pairs address the same physical site exactly when they are
congruent componentwise. -/
lemma get_index_inj (g : Grid) (hw : 0 < g.width) (hh : 0 < g.height)
    (x y x' y' : Int) :
    g.get_index x y = g.get_index x' y' ↔
      (x % (g.width : Int) = x' % (g.width : Int) ∧
       y % (g.height : Int) = y' % (g.height : Int)) := by
  have hw' : (0 : Int) < (g.width : Int) := by exact_mod_cast hw
  constructor
  · intro he
    have heZ : (g.get_index x y : Int) = (g.get_index x' y' : Int) := by exact_mod_cast he
    rw [get_index_eq g hw hh x y, get_index_eq g hw hh x' y'] at heZ
    have hx : x % (g.width : Int) = x' % (g.width : Int) := by
      have e1 : ∀ z w : Int, z % (g.height : Int) * (g.width : Int) + w % (g.width : Int)
          = w % (g.width : Int) + (g.width : Int) * (z % (g.height : Int)) := by
        intro z w; ring
      have e2 := congrArg (fun t => t % (g.width : Int)) heZ
      simp only [e1, Int.add_mul_emod_self_left] at e2
      rwa [Int.emod_emod_of_dvd _ dvd_rfl, Int.emod_emod_of_dvd _ dvd_rfl] at e2
    refine ⟨hx, ?_⟩
    have hy : y % (g.height : Int) * (g.width : Int) = y' % (g.height : Int) * (g.width : Int) := by
      omega
    exact mul_right_cancel₀ (ne_of_gt hw') hy
  · rintro ⟨h1, h2⟩
    have : (g.get_index x y : Int) = (g.get_index x' y' : Int) := by
      rw [get_index_eq g hw hh x y, get_index_eq g hw hh x' y', h1, h2]
    exact_mod_cast this

/-! ### List helper lemmas -/

lemma getD_set_ne {α : Type} (l : List α) {i j : Nat} (a d : α) (h : i ≠ j) :
    (l.set i a).getD j d = l.getD j d := by
  rw [List.getD_eq_getElem?_getD, List.getElem?_set_ne h, ← List.getD_eq_getElem?_getD]

lemma getD_set_self {α : Type} (l : List α) {i : Nat} (a d : α) (h : i < l.length) :
    (l.set i a).getD i d = a := by
  rw [List.getD_eq_getElem?_getD, List.getElem?_set_self h]
  rfl

lemma set_getD_self {α : Type} (l : List α) (i : Nat) (d : α) :
    l.set i (l.getD i d) = l := by
  rcases Nat.lt_or_ge i l.length with h | h
  · apply List.ext_getElem?
    intro j
    rcases eq_or_ne i j with rfl | hne
    · rw [List.getElem?_set_self h, List.getD_eq_getElem?_getD,
        List.getElem?_eq_getElem h]
      rfl
    · rw [List.getElem?_set_ne hne]
  · rw [List.set_eq_of_length_le h]

lemma getD_replicate {α : Type} {n i : Nat} (a d : α) (h : i < n) :
    (List.replicate n a).getD i d = a := by
  rw [List.getD_eq_getElem?_getD,
    List.getElem?_eq_getElem (by simpa using h), List.getElem_replicate]
  rfl

/-! ### Reads on grids -/

/-- Every read from a constant grid with positive dimensions returns the
constant spin. -/
lemma get_new_constant {w h : Nat} (s : Spin) (hw : 0 < w) (hh : 0 < h) (x y : Int) :
    (Grid.new_constant w h s).get x y = s := by
  have hidx := get_index_lt (Grid.new_constant w h s) hw hh x y
  exact getD_replicate s Spin.Up hidx

/-- Frame property of `set`: a read after a write returns the written spin at
coordinates congruent to the write target and the old spin elsewhere. -/
lemma get_set (g : Grid) (hw : 0 < g.width) (hh : 0 < g.height)
    (hlen : g.spins.length = g.width * g.height) (x y x' y' : Int) (s : Spin) :
    (g.set x y s).get x' y' =
      if x' % (g.width : Int) = x % (g.width : Int) ∧
         y' % (g.height : Int) = y % (g.height : Int)
      then s else g.get x' y' := by
  have hgi : (g.set x y s).get_index x' y' = g.get_index x' y' := rfl
  have hsp : (g.set x y s).spins = g.spins.set (g.get_index x y) s := rfl
  by_cases hc : x' % (g.width : Int) = x % (g.width : Int) ∧
      y' % (g.height : Int) = y % (g.height : Int)
  · rw [if_pos hc]
    have hidx : g.get_index x' y' = g.get_index x y :=
      (get_index_inj g hw hh x' y' x y).mpr hc
    have hb : g.get_index x y < g.spins.length := by
      rw [hlen]; exact get_index_lt g hw hh x y
    show (g.set x y s).spins.getD ((g.set x y s).get_index x' y') Spin.Up = s
    rw [hgi, hsp, hidx]
    exact getD_set_self g.spins s Spin.Up hb
  · rw [if_neg hc]
    have hne : g.get_index x y ≠ g.get_index x' y' := by
      intro he
      exact hc ((get_index_inj g hw hh x' y' x y).mp he.symm)
    show (g.set x y s).spins.getD ((g.set x y s).get_index x' y') Spin.Up = g.get x' y'
    rw [hgi, hsp]
    exact getD_set_ne g.spins s Spin.Up hne

/-! ### The Metropolis acceptance value and the single-site update -/

/-- The acceptance value actually computed by the code is negative for every
energy difference: it is `min (-(exp dE)) 1 = -(exp dE) < 0`. -/
lemma probability_of_acceptance_neg (dE : ℝ) : probability_of_acceptance dE < 0 := by
  unfold probability_of_acceptance
  have h := Real.exp_pos dE
  have h1 : -Real.exp dE < 0 := by linarith
  exact lt_of_le_of_lt (min_le_left _ _) h1

/-- For any draw in [0,1), `single_site_step` reverts its tentative flip and
returns the grid unchanged. -/
lemma single_site_step_eq_self (g : Grid) (x y : Int) (coupling field : ℚ) (r : ℝ)
    (hr : 0 ≤ r) : g.single_site_step x y coupling field r = g := by
  simp only [Grid.single_site_step]
  rw [if_pos (lt_of_lt_of_le (probability_of_acceptance_neg _) hr)]
  have hgi : ∀ x0 y0 s, (g.set x y s).get_index x0 y0 = g.get_index x0 y0 := fun _ _ _ => rfl
  show ((g.set x y ((g.get x y).flip)).set x y (g.get x y)) = g
  have hsp : ((g.set x y ((g.get x y).flip)).set x y (g.get x y)).spins
      = (g.spins.set (g.get_index x y) ((g.get x y).flip)).set (g.get_index x y) (g.get x y) := rfl
  have hval : (g.spins.set (g.get_index x y) ((g.get x y).flip)).set (g.get_index x y) (g.get x y)
      = g.spins := by
    rw [List.set_set]
    exact set_getD_self g.spins (g.get_index x y) Spin.Up
  show Grid.mk ((g.spins.set (g.get_index x y) ((g.get x y).flip)).set (g.get_index x y) (g.get x y)) g.width g.height = g
  rw [hval]

/-- A predicate preserved by every step of a left fold is preserved by the
whole fold. -/
lemma foldl_inv {α β : Type} (P : β → Prop) (f : β → α → β)
    (hf : ∀ b a, P b → P (f b a)) :
    ∀ (l : List α) (b : β), P b → P (List.foldl f b l) := by
  intro l
  induction l with
  | nil => intro b hb; exact hb
  | cons a l ih =>
    intro b hb
    exact ih _ (hf b a hb)

/-- For a stream of draws from [0,1), a full sweep leaves the grid unchanged:
every single-site update reverts. -/
lemma step_eq_self (g : Grid) (coupling field : ℚ) (rs : Nat → ℝ)
    (hrs : ∀ k, 0 ≤ rs k) : g.step coupling field rs = g := by
  unfold Grid.step
  have key := foldl_inv (fun p : Grid × Nat => p.1 = g)
    (fun acc (y : Nat) =>
      (List.range g.width).foldl
        (fun acc2 (x : Nat) =>
          (acc2.1.single_site_step (x : Int) (y : Int) coupling field (rs acc2.2), acc2.2 + 1))
        acc)
    ?_ (List.range g.height) (g, 0) rfl
  · exact key
  · intro b a hb
    exact foldl_inv (fun p : Grid × Nat => p.1 = g)
      (fun acc2 (x : Nat) =>
        (acc2.1.single_site_step (x : Int) (a : Int) coupling field (rs acc2.2), acc2.2 + 1))
      (fun b2 a2 hb2 => by
        show b2.1.single_site_step (a2 : Int) (a : Int) coupling field (rs b2.2) = g
        rw [single_site_step_eq_self b2.1 _ _ _ _ _ (hrs b2.2), hb2])
      (List.range g.width) b hb

/-! ### Dimension and length preservation -/

lemma new_constant_length (w h : Nat) (s : Spin) :
    (Grid.new_constant w h s).spins.length = w * h := by
  simp [Grid.new_constant]

lemma set_dims (g : Grid) (x y : Int) (s : Spin) :
    (g.set x y s).spins.length = g.spins.length ∧
    (g.set x y s).width = g.width ∧ (g.set x y s).height = g.height :=
  ⟨List.length_set g.spins _ s, rfl, rfl⟩

lemma single_site_step_dims (g : Grid) (x y : Int) (coupling field : ℚ) (r : ℝ) :
    (g.single_site_step x y coupling field r).spins.length = g.spins.length ∧
    (g.single_site_step x y coupling field r).width = g.width ∧
    (g.single_site_step x y coupling field r).height = g.height := by
  simp only [Grid.single_site_step]
  split
  · exact ⟨by simp [Grid.set], rfl, rfl⟩
  · exact ⟨by simp [Grid.set], rfl, rfl⟩

lemma step_dims (g : Grid) (coupling field : ℚ) (rs : Nat → ℝ) :
    (g.step coupling field rs).spins.length = g.spins.length ∧
    (g.step coupling field rs).width = g.width ∧
    (g.step coupling field rs).height = g.height := by
  unfold Grid.step
  refine foldl_inv
    (fun p : Grid × Nat => p.1.spins.length = g.spins.length ∧
      p.1.width = g.width ∧ p.1.height = g.height)
    _ ?_ (List.range g.height) (g, 0) ⟨rfl, rfl, rfl⟩
  intro b a hb
  refine foldl_inv
    (fun p : Grid × Nat => p.1.spins.length = g.spins.length ∧
      p.1.width = g.width ∧ p.1.height = g.height)
    _ ?_ (List.range g.width) b hb
  intro b2 a2 hb2
  have hd := single_site_step_dims b2.1 (a2 : Int) (a : Int) coupling field (rs b2.2)
  exact ⟨hd.1.trans hb2.1, hd.2.1.trans hb2.2.1, hd.2.2.trans hb2.2.2⟩

/-! ### Spec-side definitions

These definitions follow the wording of the specification, to be compared
with the definitions embedded from the source. -/

/-- Modelled from the spec wording: the interaction energy formula
`E_interaction(x,y) = -J * s(x,y) * (s(x,y+1) + s(x,y-1) + s(x-1,y) + s(x+1,y))`. -/
def interaction_energy_spec (g : Grid) (x y : Int) (J : ℚ) : ℚ :=
  -J * g.get_spin_as_float x y *
    (g.get_spin_as_float x (y + 1) + g.get_spin_as_float x (y - 1) +
     g.get_spin_as_float (x - 1) y + g.get_spin_as_float (x + 1) y)

/-- Modelled from the spec wording: the field energy formula
`E_field(x,y) = h * (s(x,y) + s(x,y+1) + s(x,y-1) + s(x-1,y) + s(x+1,y))`. -/
def field_energy_spec (g : Grid) (x y : Int) (h : ℚ) : ℚ :=
  h * (g.get_spin_as_float x y +
    g.get_spin_as_float x (y + 1) + g.get_spin_as_float x (y - 1) +
    g.get_spin_as_float (x - 1) y + g.get_spin_as_float (x + 1) y)

/-- Modelled from the spec wording: the Metropolis acceptance probability
`p = min(1.0, exp(-dE))`. -/
noncomputable def acceptance_probability_spec (dE : ℝ) : ℝ :=
  min 1 (Real.exp (-dE))

/-- Every projected read from a constant all-Up grid with positive dimensions
is 1. -/
lemma get_spin_as_float_new_constant {w h : Nat} (hw : 0 < w) (hh : 0 < h) (x y : Int) :
    (Grid.new_constant w h Spin.Up).get_spin_as_float x y = 1 := by
  unfold Grid.get_spin_as_float
  rw [get_new_constant Spin.Up hw hh x y]

/-! ### Claims -/

/-- C1: the claim states the single-site update computes the acceptance
probability `min(1.0, exp(-dE))` and in particular always accepts flips with
`dE < 0`. The code instead computes `(-(dE).exp()).min(1.0)`: the method
call binds tighter than the unary minus, so the value compared against the
draw is `min (-(exp dE)) 1`, which is negative, and the flip is reverted
even when `dE < 0`. Witnessed on the all-Up 3 by 3 grid with coupling -1 and
field 0 at site (0,0): the energy difference is -8 < 0, the spec acceptance
probability is 1, yet the update reverts the flip for the draw 1/2. This
contradicts the comment in the source, which says the computed value is
`exp(-dE)`. -/
theorem single_site_acceptance_uses_negated_exp :
    ((Grid.new_constant 3 3 Spin.Up).set 0 0 Spin.Down).total_energy 0 0 (-1) 0 -
      (Grid.new_constant 3 3 Spin.Up).total_energy 0 0 (-1) 0 = -8 ∧
    (-8 : ℚ) < 0 ∧
    acceptance_probability_spec ((-8 : ℚ) : ℝ) = 1 ∧
    probability_of_acceptance ((-8 : ℚ) : ℝ) < 0 ∧
    (Grid.new_constant 3 3 Spin.Up).single_site_step 0 0 (-1) 0 (1/2) =
      Grid.new_constant 3 3 Spin.Up := by
  have hw : 0 < (Grid.new_constant 3 3 Spin.Up).width := by decide
  have hh : 0 < (Grid.new_constant 3 3 Spin.Up).height := by decide
  have hlen : (Grid.new_constant 3 3 Spin.Up).spins.length =
      (Grid.new_constant 3 3 Spin.Up).width * (Grid.new_constant 3 3 Spin.Up).height := by decide
  have e0 : ((Grid.new_constant 3 3 Spin.Up).set 0 0 Spin.Down).get 0 0 = Spin.Down := by
    rw [get_set _ hw hh hlen 0 0 0 0 Spin.Down, if_pos (by decide)]
  have e1 : ((Grid.new_constant 3 3 Spin.Up).set 0 0 Spin.Down).get 0 1 = Spin.Up := by
    rw [get_set _ hw hh hlen 0 0 0 1 Spin.Down, if_neg (by decide)]
    exact get_new_constant Spin.Up (by decide) (by decide) 0 1
  have e2 : ((Grid.new_constant 3 3 Spin.Up).set 0 0 Spin.Down).get 0 (-1) = Spin.Up := by
    rw [get_set _ hw hh hlen 0 0 0 (-1) Spin.Down, if_neg (by decide)]
    exact get_new_constant Spin.Up (by decide) (by decide) 0 (-1)
  have e3 : ((Grid.new_constant 3 3 Spin.Up).set 0 0 Spin.Down).get (-1) 0 = Spin.Up := by
    rw [get_set _ hw hh hlen 0 0 (-1) 0 Spin.Down, if_neg (by decide)]
    exact get_new_constant Spin.Up (by decide) (by decide) (-1) 0
  have e4 : ((Grid.new_constant 3 3 Spin.Up).set 0 0 Spin.Down).get 1 0 = Spin.Up := by
    rw [get_set _ hw hh hlen 0 0 1 0 Spin.Down, if_neg (by decide)]
    exact get_new_constant Spin.Up (by decide) (by decide) 1 0
  refine ⟨?_, by norm_num, ?_, probability_of_acceptance_neg _, ?_⟩
  · simp only [Grid.total_energy, Grid.interaction_energy, Grid.field_energy,
      Grid.get_spin_as_float, zero_add, zero_sub, e0, e1, e2, e3, e4,
      get_new_constant Spin.Up (by decide : (0:Nat) < 3) (by decide : (0:Nat) < 3)]
    norm_num
  · unfold acceptance_probability_spec
    have h1 : (1 : ℝ) ≤ Real.exp (-((-8 : ℚ) : ℝ)) := by
      rw [Real.one_le_exp_iff]
      norm_num
    simp [min_eq_left h1]
  · exact single_site_step_eq_self _ 0 0 (-1) 0 (1/2) (by norm_num)

/-- C2: for every grid, site, coupling, field and draw r in [0,1), the value
compared against r is `min (-(exp dE)) 1`, which is negative, so `r > p`
always holds, the tentative flip is always reverted and neither the
single-site update nor a full sweep changes any spin. -/
theorem single_site_step_always_reverts (g : Grid) (x y : Int) (coupling field : ℚ)
    (r : ℝ) (rs : Nat → ℝ) (hr : 0 ≤ r) (hrs : ∀ k, 0 ≤ rs k) :
    (∀ dE : ℝ, probability_of_acceptance dE < 0) ∧
    g.single_site_step x y coupling field r = g ∧
    g.step coupling field rs = g :=
  ⟨probability_of_acceptance_neg,
   single_site_step_eq_self g x y coupling field r hr,
   step_eq_self g coupling field rs hrs⟩

/-- Witness for C2 at a concrete grid and draw. -/
theorem single_site_step_always_reverts_witness :
    0 ≤ (1/2 : ℝ) ∧ (∀ k : Nat, 0 ≤ (fun _ : Nat => (1/2 : ℝ)) k) ∧
    (Grid.new_constant 2 2 Spin.Up).single_site_step 0 0 1 1 (1/2) =
      Grid.new_constant 2 2 Spin.Up ∧
    (Grid.new_constant 2 2 Spin.Up).step 1 1 (fun _ => 1/2) =
      Grid.new_constant 2 2 Spin.Up := by
  have h := single_site_step_always_reverts (Grid.new_constant 2 2 Spin.Up) 0 0 1 1
    (1/2) (fun _ => 1/2) (by norm_num) (fun k => by norm_num)
  exact ⟨by norm_num, fun k => by norm_num, h.2.1, h.2.2⟩

/-- C3: the claim (and the test in the source repository) says the field
energy of any site of a constant all-Up grid with field 1.0 is 4.0. The code
sums the spin at the site together with its four neighbours, five terms in
total, so it returns 5.0: the code contradicts its own test. -/
theorem field_energy_constant_up_grid_eq_five :
    (Grid.new_constant 50 50 Spin.Up).field_energy 0 0 1 = 5 ∧
    (Grid.new_constant 50 50 Spin.Up).field_energy 0 0 1 ≠ 4 := by
  have h5 : (Grid.new_constant 50 50 Spin.Up).field_energy 0 0 1 = 5 := by
    simp only [Grid.field_energy,
      get_spin_as_float_new_constant (by decide : (0:Nat) < 50) (by decide : (0:Nat) < 50)]
    norm_num
  exact ⟨h5, by rw [h5]; norm_num⟩

/-- C4: the energy functions implement the spec formulas: the interaction
energy is `-J * s(x,y) * (s(x,y+1) + s(x,y-1) + s(x-1,y) + s(x+1,y))`, the
field energy is `h * (s(x,y) + s(x,y+1) + s(x,y-1) + s(x-1,y) + s(x+1,y))`,
the total energy is their sum, and on a constant all-Up grid the interaction
energy with coupling 1 is -4. The embedded energy functions are pure, so
they cannot mutate the grid. -/
theorem energy_functions_match_spec_formulas (g : Grid) (x y : Int)
    (coupling field : ℚ) (w h : Nat) (hw : 0 < w) (hh : 0 < h) :
    g.interaction_energy x y coupling = interaction_energy_spec g x y coupling ∧
    g.field_energy x y field = field_energy_spec g x y field ∧
    g.total_energy x y coupling field =
      g.interaction_energy x y coupling + g.field_energy x y field ∧
    (Grid.new_constant w h Spin.Up).interaction_energy x y 1 = -4 := by
  refine ⟨rfl, ?_, rfl, ?_⟩
  · simp only [Grid.field_energy, field_energy_spec]
    ring
  · simp only [Grid.interaction_energy, get_spin_as_float_new_constant hw hh]
    norm_num

/-- Witness for C4 on the all-Up 50 by 50 grid at site (7, 9). -/
theorem energy_functions_match_spec_formulas_witness :
    0 < 50 ∧
    (Grid.new_constant 50 50 Spin.Up).interaction_energy 7 9 1 = -4 :=
  ⟨by decide,
   (energy_functions_match_spec_formulas (Grid.new_constant 50 50 Spin.Up) 7 9 1 1
      50 50 (by decide) (by decide)).2.2.2⟩

/-- C5: for positive dimensions, `get_index` is the row-major offset built
from the true mathematical modulo of each coordinate, each wrapped component
lies in the half-open range below the corresponding dimension, the offset is
always in bounds, and the boundary table for a 50 by 50 grid holds. -/
theorem get_index_true_modulo (g : Grid) (hw : 0 < g.width) (hh : 0 < g.height)
    (x y : Int) :
    (g.get_index x y : Int) =
      y % (g.height : Int) * (g.width : Int) + x % (g.width : Int) ∧
    0 ≤ x % (g.width : Int) ∧ x % (g.width : Int) < (g.width : Int) ∧
    0 ≤ y % (g.height : Int) ∧ y % (g.height : Int) < (g.height : Int) ∧
    g.get_index x y < g.width * g.height ∧
    (Grid.new_constant 50 50 Spin.Up).get_index 0 0 = 0 ∧
    (Grid.new_constant 50 50 Spin.Up).get_index 50 0 = 0 ∧
    (Grid.new_constant 50 50 Spin.Up).get_index 3 50 = 3 ∧
    (Grid.new_constant 50 50 Spin.Up).get_index 500 500 = 0 ∧
    (Grid.new_constant 50 50 Spin.Up).get_index (-50) 0 = 0 ∧
    (Grid.new_constant 50 50 Spin.Up).get_index (-1) 0 = 49 := by
  have hw' : (0 : Int) < (g.width : Int) := by exact_mod_cast hw
  have hh' : (0 : Int) < (g.height : Int) := by exact_mod_cast hh
  exact ⟨get_index_eq g hw hh x y,
    Int.emod_nonneg _ (ne_of_gt hw'), Int.emod_lt_of_pos _ hw',
    Int.emod_nonneg _ (ne_of_gt hh'), Int.emod_lt_of_pos _ hh',
    get_index_lt g hw hh x y,
    by decide, by decide, by decide, by decide, by decide, by decide⟩

/-- Witness for C5 at the wrapped coordinate (-1, 0) of a 50 by 50 grid. -/
theorem get_index_true_modulo_witness :
    0 < (Grid.new_constant 50 50 Spin.Up).width ∧
    0 < (Grid.new_constant 50 50 Spin.Up).height ∧
    ((Grid.new_constant 50 50 Spin.Up).get_index (-1) 0 : Int) =
      0 % ((Grid.new_constant 50 50 Spin.Up).height : Int) *
        ((Grid.new_constant 50 50 Spin.Up).width : Int) +
      (-1) % ((Grid.new_constant 50 50 Spin.Up).width : Int) :=
  ⟨by decide, by decide,
   (get_index_true_modulo (Grid.new_constant 50 50 Spin.Up)
      (by decide) (by decide) (-1) 0).1⟩

/-- C6: reads are periodic in both coordinates with any integer period
multiplier, including negative multipliers. -/
theorem get_periodicity (g : Grid) (hw : 0 < g.width) (hh : 0 < g.height)
    (x y k : Int) :
    g.get (x + k * (g.width : Int)) y = g.get x y ∧
    g.get x (y + k * (g.height : Int)) = g.get x y := by
  have h1 : g.get_index (x + k * (g.width : Int)) y = g.get_index x y :=
    (get_index_inj g hw hh _ y x y).mpr ⟨Int.add_mul_emod_self, rfl⟩
  have h2 : g.get_index x (y + k * (g.height : Int)) = g.get_index x y :=
    (get_index_inj g hw hh x _ x y).mpr ⟨rfl, Int.add_mul_emod_self⟩
  exact ⟨congrArg (fun i => g.spins.getD i Spin.Up) h1,
    congrArg (fun i => g.spins.getD i Spin.Up) h2⟩

/-- Witness for C6 on a 4 by 5 grid with k = -3. -/
theorem get_periodicity_witness :
    0 < (Grid.new_constant 4 5 Spin.Up).width ∧
    0 < (Grid.new_constant 4 5 Spin.Up).height ∧
    (Grid.new_constant 4 5 Spin.Up).get
        (2 + (-3) * ((Grid.new_constant 4 5 Spin.Up).width : Int)) 1 =
      (Grid.new_constant 4 5 Spin.Up).get 2 1 :=
  ⟨by decide, by decide,
   (get_periodicity (Grid.new_constant 4 5 Spin.Up) (by decide) (by decide) 2 1 (-3)).1⟩

/-- C7: on a grid satisfying the length invariant, a write followed by a read
returns the written spin at every coordinate congruent to the write target
modulo the dimensions, and the previous spin at every other coordinate. -/
theorem set_get_frame (g : Grid) (hw : 0 < g.width) (hh : 0 < g.height)
    (hlen : g.spins.length = g.width * g.height) (x y x' y' : Int) (s : Spin) :
    (g.set x y s).get x' y' =
      if x' % (g.width : Int) = x % (g.width : Int) ∧
         y' % (g.height : Int) = y % (g.height : Int)
      then s else g.get x' y' :=
  get_set g hw hh hlen x y x' y' s

/-- Witness for C7: writing Down at (65, 14) on a 50 by 50 all-Up grid and
reading back at the congruent coordinate (15, 14). -/
theorem set_get_frame_witness :
    0 < (Grid.new_constant 50 50 Spin.Up).width ∧
    0 < (Grid.new_constant 50 50 Spin.Up).height ∧
    (Grid.new_constant 50 50 Spin.Up).spins.length =
      (Grid.new_constant 50 50 Spin.Up).width * (Grid.new_constant 50 50 Spin.Up).height ∧
    ((Grid.new_constant 50 50 Spin.Up).set 65 14 Spin.Down).get 15 14 =
      if (15 : Int) % ((Grid.new_constant 50 50 Spin.Up).width : Int) =
           (65 : Int) % ((Grid.new_constant 50 50 Spin.Up).width : Int) ∧
         (14 : Int) % ((Grid.new_constant 50 50 Spin.Up).height : Int) =
           (14 : Int) % ((Grid.new_constant 50 50 Spin.Up).height : Int)
      then Spin.Down else (Grid.new_constant 50 50 Spin.Up).get 15 14 :=
  ⟨by decide, by decide, new_constant_length 50 50 Spin.Up,
   set_get_frame (Grid.new_constant 50 50 Spin.Up) (by decide) (by decide)
     (new_constant_length 50 50 Spin.Up) 65 14 15 14 Spin.Down⟩

/-- C8: both constructors establish the length invariant, and `set`, the
single-site update and a full sweep preserve it together with the
dimensions. All embedded operations are structurally recursive Lean
functions, so every operation, including a full sweep, terminates. -/
theorem grid_invariants_preserved (w h : Nat) (s : Spin) (coins : Nat → Bool)
    (g : Grid) (x y : Int) (coupling field : ℚ) (r : ℝ) (rs : Nat → ℝ)
    (hg : g.spins.length = g.width * g.height) :
    (Grid.new_constant w h s).spins.length =
      (Grid.new_constant w h s).width * (Grid.new_constant w h s).height ∧
    (Grid.new_random_with w h coins).spins.length =
      (Grid.new_random_with w h coins).width * (Grid.new_random_with w h coins).height ∧
    ((g.set x y s).spins.length = (g.set x y s).width * (g.set x y s).height ∧
     (g.set x y s).width = g.width ∧ (g.set x y s).height = g.height) ∧
    ((g.single_site_step x y coupling field r).spins.length =
       (g.single_site_step x y coupling field r).width *
         (g.single_site_step x y coupling field r).height ∧
     (g.single_site_step x y coupling field r).width = g.width ∧
     (g.single_site_step x y coupling field r).height = g.height) ∧
    ((g.step coupling field rs).spins.length =
       (g.step coupling field rs).width * (g.step coupling field rs).height ∧
     (g.step coupling field rs).width = g.width ∧
     (g.step coupling field rs).height = g.height) := by
  have hset := set_dims g x y s
  have hsss := single_site_step_dims g x y coupling field r
  have hstep := step_dims g coupling field rs
  refine ⟨?_, ?_, ⟨?_, hset.2.1, hset.2.2⟩, ⟨?_, hsss.2.1, hsss.2.2⟩,
    ⟨?_, hstep.2.1, hstep.2.2⟩⟩
  · simp [Grid.new_constant]
  · simp [Grid.new_random_with]
  · rw [hset.1, hset.2.1, hset.2.2, hg]
  · rw [hsss.1, hsss.2.1, hsss.2.2, hg]
  · rw [hstep.1, hstep.2.1, hstep.2.2, hg]

/-- Witness for C8 on a concrete 3 by 2 grid. -/
theorem grid_invariants_preserved_witness :
    (Grid.new_constant 3 2 Spin.Up).spins.length =
      (Grid.new_constant 3 2 Spin.Up).width * (Grid.new_constant 3 2 Spin.Up).height ∧
    ((Grid.new_constant 3 2 Spin.Up).step 1 1 (fun _ => 0)).spins.length =
      ((Grid.new_constant 3 2 Spin.Up).step 1 1 (fun _ => 0)).width *
        ((Grid.new_constant 3 2 Spin.Up).step 1 1 (fun _ => 0)).height := by
  have h := grid_invariants_preserved 3 2 Spin.Up (fun _ => true)
    (Grid.new_constant 3 2 Spin.Up) 0 0 1 1 0 (fun _ => 0) (by decide)
  exact ⟨h.1, h.2.2.2.2.1⟩

/-! ### Row-major sweep order -/

/-- Modelled from the spec wording for the sweep: the sites in row-major
order, y outer over [0, height), x inner over [0, width). -/
def row_major_sites (w h : Nat) : List (Int × Int) :=
  (List.range h).flatMap
    (fun (y : Nat) => (List.range w).map (fun (x : Nat) => ((x : Int), (y : Int))))

/-- Modelled from the spec wording for the sweep: one single-site Metropolis
update per site, taken sequentially over the row-major site list, each update
acting on the grid left by the previous one. -/
noncomputable def step_spec (g : Grid) (coupling field : ℚ) (rs : Nat → ℝ) : Grid :=
  ((row_major_sites g.width g.height).foldl
    (fun acc p => (acc.1.single_site_step p.1 p.2 coupling field (rs acc.2), acc.2 + 1))
    (g, 0)).1

/-- A left fold over a flattened list of lists is the nested left fold. -/
lemma foldl_flatMap {α β γ : Type} (F : γ → β → γ) (f : α → List β) :
    ∀ (l : List α) (init : γ),
      List.foldl F init (l.flatMap f) =
        List.foldl (fun acc a => List.foldl F acc (f a)) init l := by
  intro l
  induction l with
  | nil => intro init; rfl
  | cons a l ih =>
    intro init
    rw [List.flatMap_cons, List.foldl_append, ih]
    rfl

/-- C9: the sweep is exactly the sequential left fold of the single-site
update over the row-major site list: y outer, x inner, each update receiving
the grid produced by the previous one, with one update (and one random draw)
per site. The row-major site list enumerates every site exactly once. -/
theorem step_row_major_sequential (g : Grid) (coupling field : ℚ) (rs : Nat → ℝ) :
    g.step coupling field rs = step_spec g coupling field rs ∧
    (row_major_sites g.width g.height).length = g.width * g.height ∧
    (row_major_sites g.width g.height).Nodup ∧
    (∀ p : Int × Int, p ∈ row_major_sites g.width g.height ↔
      ∃ xv : Nat, xv < g.width ∧ ∃ yv : Nat, yv < g.height ∧
        p = ((xv : Int), (yv : Int))) := by
  refine ⟨?_, ?_, ?_, ?_⟩
  · unfold Grid.step step_spec row_major_sites
    rw [foldl_flatMap]
    simp only [List.foldl_map]
  · unfold row_major_sites
    rw [List.length_flatMap]
    simp [Function.comp_def, mul_comm]
  · unfold row_major_sites
    rw [List.nodup_flatMap]
    constructor
    · intro yv _
      refine List.Nodup.map ?_ (List.nodup_range g.width)
      intro a b hab
      have h1 : ((a : Int), (yv : Int)) = ((b : Int), (yv : Int)) := hab
      injection h1 with h2 h3
      exact_mod_cast h2
    · have hpw : List.Pairwise (· ≠ ·) (List.range g.height) :=
        List.nodup_range g.height
      refine hpw.imp ?_
      intro a b hab p hpa hpb
      simp only [List.mem_map, List.mem_range] at hpa hpb
      obtain ⟨xa, _, rfl⟩ := hpa
      obtain ⟨xb, _, heq⟩ := hpb
      have h3 := congrArg Prod.snd heq
      simp only at h3
      exact hab (by exact_mod_cast h3.symm)
  · intro p
    simp only [row_major_sites, List.mem_flatMap, List.mem_map, List.mem_range]
    constructor
    · rintro ⟨yv, hy, xv, hx, rfl⟩
      exact ⟨xv, hx, yv, hy, rfl⟩
    · rintro ⟨xv, hx, yv, hy, rfl⟩
      exact ⟨yv, hy, xv, hx, rfl⟩

/-! ### The standalone executable sweep from src/main.rs

The executable keeps its configuration as a `Vec<Vec<i32>>`; reads
`m[i][j]` and writes `m[i][j] = v` become `at2` and `set2`. -/

/-- Read entry (i, j) of a nested configuration. Indexing in the source
panics out of bounds; on square configurations every index used is in
bounds, so the defaults are never consulted there. -/
def at2 (m : List (List Int)) (i j : Nat) : Int :=
  (m.getD i []).getD j 0

/-- Write entry (i, j) of a nested configuration. -/
def set2 (m : List (List Int)) (i j : Nat) (v : Int) : List (List Int) :=
  m.set i ((m.getD i []).set j v)

/-- The configuration is a `size` by `size` matrix. -/
def is_square (m : List (List Int)) (size : Nat) : Prop :=
  m.length = size ∧ ∀ i, i < size → (m.getD i []).length = size

/-- The four neighbour reads of `sweep` in `src/main.rs`, with the manual
wrap conditions written exactly as in the source. All reads are from the
`initial_configuration` argument `cfg`. -/
def neighbor_sum (cfg : List (List Int)) (size i j : Nat) : Int :=
  let spin_up := at2 cfg i (if j = size - 1 then 0 else j + 1)
  let spin_down := at2 cfg i (if j = 0 then size - 1 else j - 1)
  let spin_left := at2 cfg (if i = 0 then size - 1 else i - 1) j
  let spin_right := at2 cfg (if i = size - 1 then 0 else i + 1) j
  spin_up + spin_down + spin_left + spin_right

/-- The per-site energy expression of `sweep` in `src/main.rs` for a spin
value `s`: the interaction part is
`-J * (s * (spin_up + spin_down + spin_left + spin_right)) as f64` and the
field part is `- h * (s as f64)`: the field term involves only the spin at
the site itself, with no neighbour contribution. -/
def site_energy (cfg : List (List Int)) (size : Nat) (J h : ℝ) (i j : Nat) (s : Int) : ℝ :=
  -J * ((s * neighbor_sum cfg size i j : Int) : ℝ) - h * (s : ℝ)

/-- The flip decision of `sweep` in `src/main.rs` at site (i, j):
`change_in_energy < 0.0 || rng.gen::<f64>() < probability_of_change` with
`probability_of_change = exp(-change_in_energy)`. Every quantity is computed
from the initial configuration `cfg`. `rng i j` is the uniform draw for the
site; the source consults it only when the energy change is non-negative
because `||` short-circuits, which does not affect the decision value. -/
def sweep_flips (cfg : List (List Int)) (size : Nat) (J h : ℝ)
    (rng : Nat → Nat → ℝ) (i j : Nat) : Prop :=
  let initial_spin := at2 cfg i j
  let final_spin := -initial_spin
  let initial_energy := site_energy cfg size J h i j initial_spin
  let final_energy := site_energy cfg size J h i j final_spin
  let change_in_energy := final_energy - initial_energy
  change_in_energy < 0 ∨ rng i j < Real.exp (-change_in_energy)

open Classical in
/-- `sweep` from `src/main.rs`: `i` outer and `j` inner over `0..size`; the
flip at each site is decided entirely from `cfg` (the function reads only
`initial_configuration`, which it never writes), and accepted flips are
written to `updated_configuration`, a clone of the input, which is
returned. -/
noncomputable def sweep (cfg : List (List Int)) (size : Nat) (J h : ℝ)
    (rng : Nat → Nat → ℝ) : List (List Int) :=
  (List.range size).foldl
    (fun updated_configuration (i : Nat) =>
      (List.range size).foldl
        (fun updated2 (j : Nat) =>
          if sweep_flips cfg size J h rng i j then set2 updated2 i j (-(at2 cfg i j))
          else updated2)
        updated_configuration)
    cfg

/-! ### Frame lemmas for nested configurations -/

lemma at2_set2_ne (m : List (List Int)) (i j i' j' : Nat) (v : Int)
    (h : ¬(i = i' ∧ j = j')) : at2 (set2 m i j v) i' j' = at2 m i' j' := by
  unfold at2 set2
  rcases eq_or_ne i i' with rfl | hne
  · have hj : j ≠ j' := fun hj => h ⟨rfl, hj⟩
    rcases Nat.lt_or_ge i m.length with hlt | hge
    · rw [getD_set_self m _ [] hlt, getD_set_ne _ v 0 hj]
    · rw [List.set_eq_of_length_le hge]
  · rw [getD_set_ne _ _ [] hne]

lemma at2_set2_self (m : List (List Int)) (i j : Nat) (v : Int)
    (hi : i < m.length) (hj : j < (m.getD i []).length) :
    at2 (set2 m i j v) i j = v := by
  unfold at2 set2
  rw [getD_set_self m _ [] hi, getD_set_self _ v 0 hj]

lemma set2_is_square (m : List (List Int)) (size i j : Nat) (v : Int)
    (h : is_square m size) : is_square (set2 m i j v) size := by
  obtain ⟨hlen, hrow⟩ := h
  refine ⟨by simpa [set2] using hlen, ?_⟩
  intro i' hi'
  rcases eq_or_ne i i' with rfl | hne
  · have hlt : i < m.length := by omega
    unfold set2
    rw [getD_set_self m _ [] hlt, List.length_set]
    exact hrow i hi'
  · unfold set2
    rw [getD_set_ne _ _ [] hne]
    exact hrow i' hi'

open Classical

/-- After processing the first `m` columns of row i' of a sweep, entry (i, j)
holds the flipped value when the site was visited and the decision from the
initial configuration accepted, and is untouched otherwise. -/
lemma sweep_inner_at2 (cfg : List (List Int)) (size : Nat) (J h : ℝ)
    (rng : Nat → Nat → ℝ) (i j i' : Nat) (hi : i < size) (hj : j < size) :
    ∀ (m : Nat) (u : List (List Int)), is_square u size →
      at2 ((List.range m).foldl
        (fun u2 (jj : Nat) =>
          if sweep_flips cfg size J h rng i' jj then set2 u2 i' jj (-(at2 cfg i' jj))
          else u2) u) i j =
      if i' = i ∧ j < m ∧ sweep_flips cfg size J h rng i j then -(at2 cfg i j)
      else at2 u i j := by
  intro m
  induction m with
  | zero =>
    intro u hu
    simp only [List.range_zero, List.foldl_nil]
    rw [if_neg (fun hc => (Nat.not_lt_zero j) hc.2.1)]
  | succ m ih =>
    intro u hu
    rw [List.range_succ, List.foldl_append]
    simp only [List.foldl_cons, List.foldl_nil]
    by_cases hf : sweep_flips cfg size J h rng i' m
    · rw [if_pos hf]
      by_cases hij : i' = i ∧ m = j
      · obtain ⟨rfl, rfl⟩ := hij
        have hpres : ∀ (b : List (List Int)) (a : Nat), is_square b size →
            is_square (if sweep_flips cfg size J h rng i' a
              then set2 b i' a (-(at2 cfg i' a)) else b) size := by
          intro b a hb
          split
          · exact set2_is_square b size i' a _ hb
          · exact hb
        have hR := foldl_inv (fun t => is_square t size)
          (fun u2 (jj : Nat) =>
            if sweep_flips cfg size J h rng i' jj then set2 u2 i' jj (-(at2 cfg i' jj))
            else u2)
          hpres (List.range m) u hu
        rw [at2_set2_self _ i' m _ (by rw [hR.1]; exact hi) (by rw [hR.2 i' hi]; exact hj)]
        rw [if_pos ⟨rfl, Nat.lt_succ_self m, hf⟩]
      · rw [at2_set2_ne _ i' m i j _ hij, ih u hu]
        have hcond : (i' = i ∧ j < m + 1 ∧ sweep_flips cfg size J h rng i j) ↔
            (i' = i ∧ j < m ∧ sweep_flips cfg size J h rng i j) := by
          constructor
          · rintro ⟨rfl, hlt, hp⟩
            refine ⟨rfl, ?_, hp⟩
            have hne : m ≠ j := fun he => hij ⟨rfl, he⟩
            omega
          · rintro ⟨rfl, hlt, hp⟩
            exact ⟨rfl, by omega, hp⟩
        rw [if_congr hcond rfl rfl]
    · rw [if_neg hf, ih u hu]
      have hcond : (i' = i ∧ j < m + 1 ∧ sweep_flips cfg size J h rng i j) ↔
          (i' = i ∧ j < m ∧ sweep_flips cfg size J h rng i j) := by
        constructor
        · rintro ⟨rfl, hlt, hp⟩
          refine ⟨rfl, ?_, hp⟩
          rcases Nat.lt_succ_iff_lt_or_eq.mp hlt with h1 | rfl
          · exact h1
          · exact absurd hp hf
        · rintro ⟨rfl, hlt, hp⟩
          exact ⟨rfl, by omega, hp⟩
      rw [if_congr hcond rfl rfl]

/-- After processing the first `m` rows of a sweep, entry (i, j) holds the
flipped value when its row was visited and the decision from the initial
configuration accepted, and is untouched otherwise. -/
lemma sweep_outer_at2 (cfg : List (List Int)) (size : Nat) (J h : ℝ)
    (rng : Nat → Nat → ℝ) (i j : Nat) (hi : i < size) (hj : j < size) :
    ∀ (m : Nat) (u : List (List Int)), is_square u size →
      at2 ((List.range m).foldl
        (fun u1 (i' : Nat) =>
          (List.range size).foldl
            (fun u2 (jj : Nat) =>
              if sweep_flips cfg size J h rng i' jj then set2 u2 i' jj (-(at2 cfg i' jj))
              else u2) u1) u) i j =
      if i < m ∧ sweep_flips cfg size J h rng i j then -(at2 cfg i j)
      else at2 u i j := by
  intro m
  induction m with
  | zero =>
    intro u hu
    simp only [List.range_zero, List.foldl_nil]
    rw [if_neg (fun hc => (Nat.not_lt_zero i) hc.1)]
  | succ m ih =>
    intro u hu
    rw [List.range_succ, List.foldl_append]
    simp only [List.foldl_cons, List.foldl_nil]
    have hpres : ∀ (b : List (List Int)) (a : Nat), is_square b size →
        is_square (if sweep_flips cfg size J h rng m a
          then set2 b m a (-(at2 cfg m a)) else b) size := by
      intro b a hb
      split
      · exact set2_is_square b size m a _ hb
      · exact hb
    have hRouter : ∀ (b : List (List Int)) (a : Nat), is_square b size →
        is_square ((List.range size).foldl
          (fun u2 (jj : Nat) =>
            if sweep_flips cfg size J h rng a jj then set2 u2 a jj (-(at2 cfg a jj))
            else u2) b) size := by
      intro b a hb
      refine foldl_inv (fun t => is_square t size) _ ?_ (List.range size) b hb
      intro b2 a2 hb2
      split
      · exact set2_is_square b2 size a a2 _ hb2
      · exact hb2
    have hR := foldl_inv (fun t => is_square t size)
      (fun u1 (i' : Nat) =>
        (List.range size).foldl
          (fun u2 (jj : Nat) =>
            if sweep_flips cfg size J h rng i' jj then set2 u2 i' jj (-(at2 cfg i' jj))
            else u2) u1)
      (fun b a hb => hRouter b a hb) (List.range m) u hu
    rw [sweep_inner_at2 cfg size J h rng i j m hi hj size _ hR, ih u hu]
    by_cases hmi : m = i
    · subst hmi
      by_cases hp : sweep_flips cfg size J h rng m j
      · rw [if_pos ⟨rfl, hj, hp⟩, if_pos ⟨Nat.lt_succ_self m, hp⟩]
      · rw [if_neg (fun hc => hp hc.2.2), if_neg (fun hc => hp hc.2),
          if_neg (fun hc => hp hc.2)]
    · rw [if_neg (fun hc => hmi hc.1)]
      have hcond : (i < m + 1 ∧ sweep_flips cfg size J h rng i j) ↔
          (i < m ∧ sweep_flips cfg size J h rng i j) := by
        constructor
        · rintro ⟨hlt, hp⟩
          exact ⟨by omega, hp⟩
        · rintro ⟨hlt, hp⟩
          exact ⟨by omega, hp⟩
      rw [if_congr hcond rfl rfl]

/-- C10: the sweep of the executable is a synchronous full-lattice update.
For every site (i, j) of a square configuration, the result at (i, j) is
decided entirely by the initial configuration: the spin is flipped exactly
when the flip decision computed from `cfg` accepts, so no site observes
updates made to other sites during the same sweep. The second conjunct records the
energy change used by that decision: its field contribution is
`2 * h * s(i,j)` coming from the per-site field term `-h * s`, with no
neighbour contribution. -/
theorem sweep_synchronous_from_initial (cfg : List (List Int)) (size : Nat)
    (J h : ℝ) (rng : Nat → Nat → ℝ) (i j : Nat) (hsq : is_square cfg size)
    (hi : i < size) (hj : j < size) :
    at2 (sweep cfg size J h rng) i j =
      (if sweep_flips cfg size J h rng i j then -(at2 cfg i j) else at2 cfg i j) ∧
    site_energy cfg size J h i j (-(at2 cfg i j)) -
        site_energy cfg size J h i j (at2 cfg i j) =
      2 * J * ((at2 cfg i j : ℝ) * (neighbor_sum cfg size i j : ℝ)) +
        2 * h * (at2 cfg i j : ℝ) := by
  constructor
  · unfold sweep
    rw [sweep_outer_at2 cfg size J h rng i j hi hj size cfg hsq]
    have hcond : (i < size ∧ sweep_flips cfg size J h rng i j) ↔
        sweep_flips cfg size J h rng i j :=
      ⟨fun hc => hc.2, fun hp => ⟨hi, hp⟩⟩
    rw [if_congr hcond rfl rfl]
  · unfold site_energy
    push_cast
    ring

/-- Witness for C10 on the concrete 2 by 2 configuration [[1,1],[1,-1]]. -/
theorem sweep_synchronous_from_initial_witness :
    is_square [[1, 1], [1, -1]] 2 ∧ (0 : Nat) < 2 ∧ (1 : Nat) < 2 ∧
    at2 (sweep [[1, 1], [1, -1]] 2 0 0 (fun _ _ => 1)) 0 1 =
      (if sweep_flips [[1, 1], [1, -1]] 2 0 0 (fun _ _ => 1) 0 1
       then -(at2 [[1, 1], [1, -1]] 0 1) else at2 [[1, 1], [1, -1]] 0 1) :=
  ⟨⟨rfl, by decide⟩, by decide, by decide,
   (sweep_synchronous_from_initial [[1, 1], [1, -1]] 2 0 0 (fun _ _ => 1) 0 1
      ⟨rfl, by decide⟩ (by decide) (by decide)).1⟩

end Ising
